import Mathlib

/-!
Verification of the generic in-memory keyed store
(`internal/platform/repository/memory`) and the health-check aggregation
manager (`internal/platform/health`) of the go-microservice-template
repository, against its natural-language specification.

The Go map `map[string]T` guarded by the repository's mutex is embedded as
an association list with unique keys; every repository operation takes the
context argument it receives in Go (and ignores it, as the Go code does with
`_ = ctx`) together with the current store, and returns the store after the
call together with the operation's result, mirroring receiver mutation plus
the returned error.  The health manager is embedded as a list of checkers
folded in registration order into a name-keyed result map, together with the
trace of invocations; the wall-clock measurement `time.Since(start)` of the
i-th invocation is supplied by an oracle `el : Nat → Int` (durations are
int64 nanoseconds in Go).
-/

set_option autoImplicit false

namespace Spec2Proof

/-- Embedding of `context.Context` as far as the embedded code observes it:
the memory health checker only asks whether the context is done
(`ctx.Done()`) and for the error text `ctx.Err().Error()`; the repository
ignores it entirely. -/
structure Context where
  cancelled : Bool
  ctxErr : String
deriving DecidableEq

/-- The two sentinel errors of `internal/platform/repository/memory`
(`errors.go`): `ErrNotFound = errors.New("entity not found")` and
`ErrAlreadyExists = errors.New("entity already exists")`.  Neither sentinel
carries any payload beyond its identity. -/
inductive RepoError where
  | notFound
  | alreadyExists
deriving DecidableEq

/-- The `Entity` interface of the generic repository: any type exposing
`GetID() string`. -/
class HasID (T : Type) where
  getID : T → String

/-- The state of `Repository[T]`: its `data map[string]T` field, embedded as
an association list from identifier to record. -/
structure Store (T : Type) where
  data : List (String × T)

/-- Go map read `v, ok := m[k]`: the value stored under key `k`, if any. -/
def lookupKey {T : Type} (k : String) : List (String × T) → Option T
  | [] => none
  | p :: rest => if p.1 = k then some p.2 else lookupKey k rest

/-- Go map write `m[k] = v` on a key that is present: replace the stored
value, keeping the key set unchanged. -/
def replaceKey {T : Type} (k : String) (v : T) : List (String × T) → List (String × T)
  | [] => []
  | p :: rest => if p.1 = k then (k, v) :: replaceKey k v rest else p :: replaceKey k v rest

/-- Go map deletion `delete(m, k)`: drop every binding of key `k` (at most
one exists in any store reachable from `New`). -/
def removeKey {T : Type} (k : String) : List (String × T) → List (String × T)
  | [] => []
  | p :: rest => if p.1 = k then removeKey k rest else p :: removeKey k rest

/-- The keys currently bound in the map. -/
def keysOf {T : Type} (l : List (String × T)) : List String := l.map Prod.fst

/-- Well-formedness of a store: identifiers are unique among currently
stored records (the Go map cannot hold a key twice). -/
abbrev WFStore {T : Type} (s : Store T) : Prop := (keysOf s.data).Nodup

/-- `New[T]()`: the empty store. -/
def newStore (T : Type) : Store T := ⟨[]⟩

/-- `Repository.Save`: fails with `ErrAlreadyExists` when the entity's
identifier is already bound, otherwise inserts the entity under its
identifier. -/
def save {T : Type} [HasID T] (ctx : Context) (r : Store T) (entity : T) :
    Store T × Option RepoError :=
  let i := HasID.getID entity
  if (lookupKey i r.data).isSome then
    (r, some RepoError.alreadyExists)
  else
    (⟨(i, entity) :: r.data⟩, none)

/-- `Repository.GetByID`: returns the stored entity or fails with
`ErrNotFound`; never mutates the store. -/
def getByID {T : Type} (ctx : Context) (r : Store T) (i : String) :
    Store T × Except RepoError T :=
  match lookupKey i r.data with
  | none => (r, Except.error RepoError.notFound)
  | some e => (r, Except.ok e)

/-- `Repository.Update`: replaces the record under the entity's identifier,
failing with `ErrNotFound` when no record is bound there (never inserts). -/
def update {T : Type} [HasID T] (ctx : Context) (r : Store T) (entity : T) :
    Store T × Option RepoError :=
  let i := HasID.getID entity
  if (lookupKey i r.data).isSome then
    (⟨replaceKey i entity r.data⟩, none)
  else
    (r, some RepoError.notFound)

/-- `Repository.Delete`: removes the record under `i`, failing with
`ErrNotFound` when absent. -/
def delete {T : Type} (ctx : Context) (r : Store T) (i : String) :
    Store T × Option RepoError :=
  if (lookupKey i r.data).isSome then
    (⟨removeKey i r.data⟩, none)
  else
    (r, some RepoError.notFound)

/-- `Repository.List`: all stored entities, in the map's iteration order;
the Go function always returns a nil error. -/
def list {T : Type} (ctx : Context) (r : Store T) :
    Store T × Except RepoError (List T) :=
  (r, Except.ok (r.data.map Prod.snd))

/-- `Repository.Count`: `len(r.data)`; the Go function always returns a nil
error. -/
def count {T : Type} (ctx : Context) (r : Store T) :
    Store T × Except RepoError Nat :=
  (r, Except.ok r.data.length)

/- Basic lemmas about the map embedding. -/

theorem lookupKey_isSome_iff_mem_keysOf {T : Type} (k : String) (l : List (String × T)) :
    (lookupKey k l).isSome = true ↔ k ∈ keysOf l := by
  induction l with
  | nil => simp [lookupKey, keysOf]
  | cons p rest ih =>
      by_cases h : p.1 = k
      · simp [lookupKey, keysOf, h]
      · simp [lookupKey, keysOf, h, ih]
        intro hkp
        exact absurd hkp.symm h

theorem lookupKey_removeKey_self {T : Type} (k : String) (l : List (String × T)) :
    lookupKey k (removeKey k l) = none := by
  induction l with
  | nil => rfl
  | cons p rest ih =>
      by_cases h : p.1 = k
      · simpa [removeKey, h] using ih
      · simp [removeKey, lookupKey, h, ih]

theorem keysOf_cons {T : Type} (p : String × T) (rest : List (String × T)) :
    keysOf (p :: rest) = p.1 :: keysOf rest := rfl

theorem lookupKey_removeKey_ne {T : Type} (k j : String) (l : List (String × T))
    (h : j ≠ k) : lookupKey j (removeKey k l) = lookupKey j l := by
  induction l with
  | nil => rfl
  | cons p rest ih =>
      by_cases hp : p.1 = k
      · have hpj : p.1 ≠ j := by rw [hp]; exact Ne.symm h
        simp only [removeKey, if_pos hp, ih, lookupKey, if_neg hpj]
      · simp only [removeKey, if_neg hp, lookupKey, ih]

theorem removeKey_eq_self_of_notMem {T : Type} (k : String) (l : List (String × T))
    (h : k ∉ keysOf l) : removeKey k l = l := by
  induction l with
  | nil => rfl
  | cons p rest ih =>
      have hk : p.1 ≠ k := fun hh => h (by simp [keysOf, hh])
      have hrest : k ∉ keysOf rest := fun hh => h (by simp [keysOf] at hh ⊢; exact Or.inr hh)
      simp [removeKey, hk, ih hrest]

theorem removeKey_length {T : Type} (k : String) (l : List (String × T))
    (hnd : (keysOf l).Nodup) (h : (lookupKey k l).isSome = true) :
    (removeKey k l).length + 1 = l.length := by
  induction l with
  | nil => simp [lookupKey] at h
  | cons p rest ih =>
      rw [keysOf_cons, List.nodup_cons] at hnd
      by_cases hp : p.1 = k
      · have hnotin : k ∉ keysOf rest := hp ▸ hnd.1
        simp [removeKey, hp, removeKey_eq_self_of_notMem k rest hnotin]
      · have hrest : (lookupKey k rest).isSome = true := by
          simpa [lookupKey, hp] using h
        have hlen := ih hnd.2 hrest
        simp only [removeKey, if_neg hp, List.length_cons]
        omega

/- Concrete entity type, from `internal/core/usecase/example` (`Entity` with
fields ID, Email, Name and `GetID() string` returning ID). -/

/-- The example domain entity: ID, Email, Name. -/
structure ExampleEntity where
  id : String
  email : String
  name : String
deriving DecidableEq

instance : HasID ExampleEntity := ⟨ExampleEntity.id⟩

/-- A live (non-cancelled) context. -/
def ctx0 : Context := ⟨false, ""⟩

def entA : ExampleEntity := ⟨"a", "a@b.com", "Alice"⟩

def entA2 : ExampleEntity := ⟨"a", "c@d.com", "Carol"⟩

def entB : ExampleEntity := ⟨"b", "b@b.com", "Bob"⟩

def entB2 : ExampleEntity := ⟨"b", "d@d.com", "Dave"⟩

def storeTwo : Store ExampleEntity := ⟨[("a", entA), ("b", entB)]⟩

def entMissing : ExampleEntity := ⟨"missing", "m@x.com", "Mallory"⟩

/-- C1: Save fails with the AlreadyExists error exactly when a record with
the entity's identifier is currently stored, in which case the store is left
unchanged (the previously stored record is preserved); when the identifier
is free, Save succeeds and a subsequent GetByID of that identifier returns
the saved record. -/
theorem save_alreadyExists_iff_roundtrip {T : Type} [HasID T]
    (ctx : Context) (s : Store T) (e : T) :
    ((save ctx s e).2 = some RepoError.alreadyExists ↔
      (lookupKey (HasID.getID e) s.data).isSome = true) ∧
    ((save ctx s e).2 = some RepoError.alreadyExists → (save ctx s e).1 = s) ∧
    (lookupKey (HasID.getID e) s.data = none →
      (save ctx s e).2 = none ∧
      (getByID ctx (save ctx s e).1 (HasID.getID e)).2 = Except.ok e) := by
  by_cases h : (lookupKey (HasID.getID e) s.data).isSome
  · refine ⟨⟨fun _ => h, fun _ => ?_⟩, fun _ => ?_, fun hnone => ?_⟩
    · simp [save, h]
    · simp [save, h]
    · rw [hnone] at h; simp at h
  · have hnone : lookupKey (HasID.getID e) s.data = none :=
      Option.not_isSome_iff_eq_none.mp h
    refine ⟨⟨fun hc => ?_, fun hs => absurd hs h⟩, fun hc => ?_, fun _ => ⟨?_, ?_⟩⟩
    · simp [save, h] at hc
    · simp [save, h] at hc
    · simp [save, h]
    · simp [save, h, getByID, lookupKey]

/-- C2: for an identifier with no record stored under it, GetByID fails
with NotFound, Update of an entity with that identifier fails with NotFound
(never inserting), and Delete fails with NotFound; in every case the store
is returned unchanged. -/
theorem absent_id_ops_notFound {T : Type} [HasID T]
    (ctx : Context) (s : Store T) (i : String) (e : T)
    (hi : lookupKey i s.data = none) (he : HasID.getID e = i) :
    getByID ctx s i = (s, Except.error RepoError.notFound) ∧
    update ctx s e = (s, some RepoError.notFound) ∧
    delete ctx s i = (s, some RepoError.notFound) := by
  refine ⟨?_, ?_, ?_⟩
  · simp [getByID, hi]
  · simp [update, he, hi]
  · simp [delete, hi]

theorem absent_id_ops_notFound_witness :
    getByID ctx0 storeTwo "missing" = (storeTwo, Except.error RepoError.notFound) ∧
    update ctx0 storeTwo entMissing = (storeTwo, some RepoError.notFound) ∧
    delete ctx0 storeTwo "missing" = (storeTwo, some RepoError.notFound) :=
  absent_id_ops_notFound ctx0 storeTwo "missing" entMissing (by decide) (by decide)

/-- C3: when identifier `i` is present in a well-formed store, Delete
succeeds, a subsequent GetByID of `i` fails with NotFound, Count afterwards
returns exactly one less than Count before, and the record stored under
every other identifier is unchanged. -/
theorem delete_present_effects {T : Type} (ctx : Context) (s : Store T) (i : String)
    (hw : WFStore s) (h : (lookupKey i s.data).isSome = true) :
    (delete ctx s i).2 = none ∧
    (getByID ctx (delete ctx s i).1 i).2 = Except.error RepoError.notFound ∧
    (∃ n : Nat, (count ctx s).2 = Except.ok (n + 1) ∧
      (count ctx (delete ctx s i).1).2 = Except.ok n) ∧
    (∀ j : String, j ≠ i → lookupKey j (delete ctx s i).1.data = lookupKey j s.data) := by
  refine ⟨?_, ?_, ?_, ?_⟩
  · simp [delete, h]
  · simp [delete, h, getByID, lookupKey_removeKey_self]
  · refine ⟨(removeKey i s.data).length, ?_, ?_⟩
    · simp [count, delete, h, ← removeKey_length i s.data hw h]
    · simp [count, delete, h]
  · intro j hj
    simp [delete, h, lookupKey_removeKey_ne i j s.data hj]

theorem delete_present_effects_witness :
    (delete ctx0 storeTwo "a").2 = none ∧
    (getByID ctx0 (delete ctx0 storeTwo "a").1 "a").2 = Except.error RepoError.notFound ∧
    (∃ n : Nat, (count ctx0 storeTwo).2 = Except.ok (n + 1) ∧
      (count ctx0 (delete ctx0 storeTwo "a").1).2 = Except.ok n) ∧
    (∀ j : String, j ≠ "a" →
      lookupKey j (delete ctx0 storeTwo "a").1.data = lookupKey j storeTwo.data) :=
  delete_present_effects ctx0 storeTwo "a" (by decide) (by decide)

/-- C4: Count returns exactly the number of elements List returns, neither
operation ever returns an error, and List on the empty store returns the
empty collection. -/
theorem count_matches_list {T : Type} (ctx : Context) (s : Store T) :
    (∃ l : List T, (list ctx s).2 = Except.ok l ∧ (count ctx s).2 = Except.ok l.length) ∧
    (list ctx (newStore T)).2 = Except.ok ([] : List T) :=
  ⟨⟨s.data.map Prod.snd, rfl, by simp [list, count]⟩, rfl⟩

/-- C9: no store operation depends on the context argument it receives:
for every pair of contexts (cancelled, expired or live) each of Save,
GetByID, Update, Delete, List and Count returns the identical result and
identical resulting store. -/
theorem store_ops_ignore_context {T : Type} [HasID T]
    (c1 c2 : Context) (s : Store T) (e : T) (i : String) :
    save c1 s e = save c2 s e ∧
    getByID c1 s i = getByID c2 s i ∧
    update c1 s e = update c2 s e ∧
    delete c1 s i = delete c2 s i ∧
    list c1 s = list c2 s ∧
    count c1 s = count c2 s :=
  ⟨rfl, rfl, rfl, rfl, rfl, rfl⟩

/- The error universe of the example memory adapter
(`internal/adapters/repository/memory`): it maps the platform sentinels to
domain errors, with `AlreadyExistsError` from the use-case package carrying
the conflicting identifier. -/

/-- Errors visible to callers of the example adapter: a platform sentinel
passed through unchanged, the domain `AlreadyExistsError{ID}` carrying an
identifier, or the domain `ErrEntityNotFound` sentinel. -/
inductive AdapterError where
  | platformErr (e : RepoError)
  | domainAlreadyExists (id : String)
  | domainNotFound
deriving DecidableEq

/-- The example adapter's `Repository.Save`: calls the platform Save and,
when it fails with the `ErrAlreadyExists` sentinel, returns
`&AlreadyExistsError{ID: entity.ID}` built from the entity it was passed;
any other error is passed through unchanged. -/
def adapterSave (ctx : Context) (r : Store ExampleEntity) (entity : ExampleEntity) :
    Store ExampleEntity × Option AdapterError :=
  let res := save ctx r entity
  match res.2 with
  | some RepoError.alreadyExists => (res.1, some (AdapterError.domainAlreadyExists entity.id))
  | some e => (res.1, some (AdapterError.platformErr e))
  | none => (res.1, none)

/-- C8 counterexample: the platform Store's Save returns the same sentinel
AlreadyExists error value for every conflicting identifier — two conflicting
saves with the distinct identifiers "a" and "b" return equal error values,
so no function of the error value alone can recover which identifier caused
the conflict. -/
theorem save_error_carries_no_identifier :
    (save ctx0 (Store.mk [("a", entA)]) entA2).2 = some RepoError.alreadyExists ∧
    (save ctx0 (Store.mk [("b", entB)]) entB2).2 = some RepoError.alreadyExists ∧
    HasID.getID entA2 ≠ HasID.getID entB2 ∧
    (save ctx0 (Store.mk [("a", entA)]) entA2).2 = (save ctx0 (Store.mk [("b", entB)]) entB2).2 ∧
    ¬ ∃ f : RepoError → String,
        f RepoError.alreadyExists = HasID.getID entA2 ∧
        f RepoError.alreadyExists = HasID.getID entB2 := by
  refine ⟨by decide, by decide, by decide, by decide, ?_⟩
  rintro ⟨f, h1, h2⟩
  rw [h1] at h2
  exact absurd h2 (by decide)

/-- C8 (amended): the platform Store's Save reports an identifier conflict
with the bare `ErrAlreadyExists` sentinel, which carries no identifier; it
is the immediate caller — the example memory adapter — that attaches the
conflicting identifier, returning the domain `AlreadyExistsError` built from
the saved entity's own ID whenever the identifier is already stored. -/
theorem adapter_save_attaches_conflicting_id
    (ctx : Context) (s : Store ExampleEntity) (e : ExampleEntity)
    (h : (lookupKey e.id s.data).isSome = true) :
    (adapterSave ctx s e).2 = some (AdapterError.domainAlreadyExists e.id) := by
  have hid : HasID.getID e = e.id := rfl
  simp [adapterSave, save, hid, h]

theorem adapter_save_attaches_conflicting_id_witness :
    (adapterSave ctx0 (Store.mk [("a", entA)]) entA2).2 =
      some (AdapterError.domainAlreadyExists "a") :=
  adapter_save_attaches_conflicting_id ctx0 (Store.mk [("a", entA)]) entA2 (by decide)

/- Health aggregation manager, from `internal/platform/health`. -/

/-- The `Status` string type of the health package. -/
abbrev Status := String

/-- `StatusHealthy Status = "healthy"`. -/
def statusHealthy : Status := "healthy"

/-- `StatusUnhealthy Status = "unhealthy"`. -/
def statusUnhealthy : Status := "unhealthy"

/-- `CheckResult`: status, message, measured latency (a `time.Duration`,
int64 nanoseconds) and optional error text. -/
structure CheckResult where
  status : Status
  message : String
  latency : Int
  error : String
deriving DecidableEq

/-- The `Checker` interface: a name and a context-aware check function. -/
structure Checker where
  name : String
  check : Context → CheckResult

/-- The body of CheckAll's loop for one checker: invoke it, then overwrite
the result's Latency with the aggregator's own measurement
`time.Since(start)`, supplied here as `d`. -/
def runCheck (c : Checker) (ctx : Context) (d : Int) : CheckResult :=
  let r := c.check ctx
  { r with latency := d }

/-- Go map assignment `results[name] = result`: replace the binding when the
key is present, append it otherwise, so keys stay unique. -/
def insertRes (m : List (String × CheckResult)) (k : String) (v : CheckResult) :
    List (String × CheckResult) :=
  if (lookupKey k m).isSome then replaceKey k v m else m ++ [(k, v)]

/-- The loop of `Manager.CheckAll` over the snapshot of registered checkers:
`i` numbers the invocation (so `el i` is the measured latency of the i-th
probe call), `acc` is the results map built so far and `tr` the trace of
probe invocations performed so far, in order. -/
def checkAllGo (ctx : Context) (el : Nat → Int) :
    List Checker → Nat → List (String × CheckResult) → List String →
      List (String × CheckResult) × List String
  | [], _, acc, tr => (acc, tr)
  | c :: rest, i, acc, tr =>
      checkAllGo ctx el rest (i + 1) (insertRes acc c.name (runCheck c ctx (el i)))
        (tr ++ [c.name])

/-- `Manager.CheckAll`: the name-keyed result map produced by running every
registered probe in registration order. -/
def checkAll (cs : List Checker) (ctx : Context) (el : Nat → Int) :
    List (String × CheckResult) :=
  (checkAllGo ctx el cs 0 [] []).1

/-- The ordered trace of probe invocations `checker.Check(ctx)` performed by
one CheckAll round. -/
def checkTrace (cs : List Checker) (ctx : Context) (el : Nat → Int) : List String :=
  (checkAllGo ctx el cs 0 [] []).2

/-- `Manager.IsHealthy`: runs CheckAll and returns false exactly when some
result's status is `StatusUnhealthy`. -/
def isHealthy (cs : List Checker) (ctx : Context) (el : Nat → Int) : Bool :=
  (checkAll cs ctx el).all (fun p => !(p.2.status == statusUnhealthy))

/-- Registered checkers paired with their invocation index, starting at `i`. -/
def withIdx : Nat → List Checker → List (Nat × Checker)
  | _, [] => []
  | i, c :: rest => (i, c) :: withIdx (i + 1) rest

/-- The latest-registered checker with the given name, together with its
invocation index. -/
def lastNamed (n : String) : List (Nat × Checker) → Option (Nat × Checker)
  | [] => none
  | p :: rest =>
      match lastNamed n rest with
      | some q => some q
      | none => if p.2.name = n then some p else none

/- Lemmas about map assignment and the CheckAll loop. -/

theorem lookupKey_replaceKey_self {T : Type} (k : String) (v : T) (l : List (String × T)) :
    lookupKey k (replaceKey k v l) = (lookupKey k l).map (fun _ => v) := by
  induction l with
  | nil => rfl
  | cons p rest ih =>
      by_cases h : p.1 = k
      · simp [replaceKey, lookupKey, h]
      · simp [replaceKey, lookupKey, h, ih]

theorem lookupKey_replaceKey_ne {T : Type} (k j : String) (v : T) (l : List (String × T))
    (h : j ≠ k) : lookupKey j (replaceKey k v l) = lookupKey j l := by
  induction l with
  | nil => rfl
  | cons p rest ih =>
      by_cases hp : p.1 = k
      · have hkj : k ≠ j := Ne.symm h
        have hpj : p.1 ≠ j := hp ▸ hkj
        simp only [replaceKey, if_pos hp, lookupKey, if_neg hkj, if_neg hpj, ih]
      · simp only [replaceKey, if_neg hp, lookupKey, ih]

theorem lookupKey_append {T : Type} (k : String) (l1 l2 : List (String × T)) :
    lookupKey k (l1 ++ l2) = (lookupKey k l1).elim (lookupKey k l2) some := by
  induction l1 with
  | nil => simp [lookupKey]
  | cons p rest ih =>
      by_cases h : p.1 = k
      · simp [lookupKey, h]
      · simp [lookupKey, h, ih]

theorem lookupKey_insertRes_self (m : List (String × CheckResult)) (k : String)
    (v : CheckResult) : lookupKey k (insertRes m k v) = some v := by
  unfold insertRes
  by_cases h : (lookupKey k m).isSome
  · rw [if_pos h, lookupKey_replaceKey_self]
    rcases Option.isSome_iff_exists.mp h with ⟨w, hw⟩
    rw [hw]; rfl
  · rw [if_neg h, lookupKey_append]
    rw [Option.not_isSome_iff_eq_none.mp h]
    simp [lookupKey]

theorem lookupKey_insertRes_ne (m : List (String × CheckResult)) (k j : String)
    (v : CheckResult) (h : j ≠ k) : lookupKey j (insertRes m k v) = lookupKey j m := by
  unfold insertRes
  by_cases hk : (lookupKey k m).isSome
  · rw [if_pos hk, lookupKey_replaceKey_ne k j v m h]
  · rw [if_neg hk, lookupKey_append]
    have : lookupKey j [(k, v)] = none := by simp [lookupKey, Ne.symm h]
    rw [this]
    cases lookupKey j m <;> rfl

theorem keysOf_replaceKey {T : Type} (k : String) (v : T) (l : List (String × T)) :
    keysOf (replaceKey k v l) = keysOf l := by
  induction l with
  | nil => rfl
  | cons p rest ih =>
      by_cases h : p.1 = k
      · simp only [replaceKey, if_pos h, keysOf_cons, ih]
        simp [h]
      · simp only [replaceKey, if_neg h, keysOf_cons, ih]

theorem keysOf_insertRes_nodup (m : List (String × CheckResult)) (k : String)
    (v : CheckResult) (h : (keysOf m).Nodup) : (keysOf (insertRes m k v)).Nodup := by
  unfold insertRes
  by_cases hk : (lookupKey k m).isSome
  · rw [if_pos hk, keysOf_replaceKey]; exact h
  · rw [if_neg hk]
    have hnotin : k ∉ keysOf m := fun hm =>
      hk ((lookupKey_isSome_iff_mem_keysOf k m).mpr hm)
    have : keysOf (m ++ [(k, v)]) = keysOf m ++ [k] := by simp [keysOf]
    rw [this]
    simp [List.nodup_append, h, hnotin]

theorem checkAllGo_trace (ctx : Context) (el : Nat → Int) (cs : List Checker) :
    ∀ (i : Nat) (acc : List (String × CheckResult)) (tr : List String),
      (checkAllGo ctx el cs i acc tr).2 = tr ++ cs.map Checker.name := by
  induction cs with
  | nil => intro i acc tr; simp [checkAllGo]
  | cons c rest ih =>
      intro i acc tr
      rw [checkAllGo, ih]
      simp

theorem checkAllGo_lookup (ctx : Context) (el : Nat → Int) (n : String) (cs : List Checker) :
    ∀ (i : Nat) (acc : List (String × CheckResult)) (tr : List String),
      lookupKey n (checkAllGo ctx el cs i acc tr).1 =
        (lastNamed n (withIdx i cs)).elim (lookupKey n acc)
          (fun p => some (runCheck p.2 ctx (el p.1))) := by
  induction cs with
  | nil => intro i acc tr; simp [checkAllGo, withIdx, lastNamed]
  | cons c rest ih =>
      intro i acc tr
      rw [checkAllGo, ih, withIdx, lastNamed]
      cases hq : lastNamed n (withIdx (i + 1) rest) with
      | some q => simp
      | none =>
          by_cases hc : c.name = n
          · simp [hc, lookupKey_insertRes_self]
          · have hnc : n ≠ c.name := Ne.symm hc
            simp [hc, lookupKey_insertRes_ne _ _ _ _ hnc]

theorem checkAllGo_nodup (ctx : Context) (el : Nat → Int) (cs : List Checker) :
    ∀ (i : Nat) (acc : List (String × CheckResult)) (tr : List String),
      (keysOf acc).Nodup → (keysOf (checkAllGo ctx el cs i acc tr).1).Nodup := by
  induction cs with
  | nil => intro i acc tr h; simpa [checkAllGo] using h
  | cons c rest ih =>
      intro i acc tr h
      rw [checkAllGo]
      exact ih _ _ _ (keysOf_insertRes_nodup acc c.name _ h)

theorem lastNamed_isSome_iff (n : String) (l : List (Nat × Checker)) :
    (lastNamed n l).isSome = true ↔ n ∈ l.map (fun p => p.2.name) := by
  induction l with
  | nil => simp [lastNamed]
  | cons p rest ih =>
      rw [lastNamed]
      cases hq : lastNamed n rest with
      | some q =>
          rw [hq] at ih
          simp only [Option.isSome_some, true_iff] at ih
          simp [ih]
      | none =>
          rw [hq] at ih
          have hnot : n ∉ rest.map (fun p => p.2.name) := fun hm => by
            simpa using ih.mpr hm
          by_cases hc : p.2.name = n
          · simp [hc]
          · simp only [if_neg hc, List.map_cons, List.mem_cons, Option.isSome_none]
            constructor
            · intro hh; exact absurd hh (by decide)
            · rintro (hh | hh)
              · exact absurd hh.symm hc
              · exact absurd hh hnot

theorem withIdx_map_name (cs : List Checker) :
    ∀ i : Nat, (withIdx i cs).map (fun p => p.2.name) = cs.map Checker.name := by
  induction cs with
  | nil => intro i; rfl
  | cons c rest ih => intro i; simp [withIdx, ih]

/-- C5: IsHealthy returns true exactly when no result produced by CheckAll
has unhealthy status; with zero registered probes CheckAll returns the empty
mapping and IsHealthy returns true. -/
theorem isHealthy_iff_no_unhealthy (cs : List Checker) (ctx : Context) (el : Nat → Int) :
    (isHealthy cs ctx el = true ↔
      ∀ p ∈ checkAll cs ctx el, p.2.status ≠ statusUnhealthy) ∧
    checkAll [] ctx el = [] ∧
    isHealthy [] ctx el = true := by
  refine ⟨?_, rfl, rfl⟩
  unfold isHealthy
  rw [List.all_eq_true]
  constructor
  · intro h p hp
    simpa using h p hp
  · intro h p hp
    simpa using h p hp

/-- C6: one CheckAll round invokes the registered probes sequentially in
registration order, and the returned mapping's entry for each name is the
result of the latest-registered probe with that name (with the aggregator's
measured latency); names never registered are absent. -/
theorem checkAll_order_and_last_wins (cs : List Checker) (ctx : Context) (el : Nat → Int) :
    checkTrace cs ctx el = cs.map Checker.name ∧
    ∀ n : String, lookupKey n (checkAll cs ctx el) =
      (lastNamed n (withIdx 0 cs)).map (fun p => runCheck p.2 ctx (el p.1)) := by
  constructor
  · rw [checkTrace, checkAllGo_trace]
    simp
  · intro n
    rw [checkAll, checkAllGo_lookup]
    cases lastNamed n (withIdx 0 cs) <;> rfl

/-- C7: CheckAll is total (its Go signature returns only the mapping, and
the embedding is a total function): its mapping binds each distinct
registered name exactly once — the keys are exactly the registered names,
without duplicates — an unhealthy probe's outcome is recorded as that
entry's result, and every registered probe is invoked regardless of the
other probes' results (the invocation trace has one entry per registration). -/
theorem checkAll_total_one_entry_per_name (cs : List Checker) (ctx : Context) (el : Nat → Int) :
    (keysOf (checkAll cs ctx el)).Nodup ∧
    (∀ n : String, (lookupKey n (checkAll cs ctx el)).isSome = true ↔
      n ∈ cs.map Checker.name) ∧
    (∀ (n : String) (p : Nat × Checker), lastNamed n (withIdx 0 cs) = some p →
      lookupKey n (checkAll cs ctx el) = some (runCheck p.2 ctx (el p.1))) ∧
    (checkTrace cs ctx el).length = cs.length := by
  refine ⟨?_, ?_, ?_, ?_⟩
  · exact checkAllGo_nodup ctx el cs 0 [] [] (by simp [keysOf])
  · intro n
    rw [checkAll, checkAllGo_lookup, ← withIdx_map_name cs 0, ← lastNamed_isSome_iff]
    cases lastNamed n (withIdx 0 cs) <;> simp [lookupKey]
  · intro n p hp
    rw [checkAll, checkAllGo_lookup, hp]
    rfl
  · rw [checkTrace, checkAllGo_trace]
    simp

/-- C10: every entry of CheckAll's mapping preserves the status, message and
error fields of the CheckResult returned by the corresponding probe, while
its latency field is the aggregator's own elapsed-time measurement of that
probe's invocation — whatever latency the probe itself set is discarded. -/
theorem checkAll_preserves_fields_replaces_latency (cs : List Checker) (ctx : Context)
    (el : Nat → Int) (n : String) (r : CheckResult)
    (h : lookupKey n (checkAll cs ctx el) = some r) :
    ∃ p : Nat × Checker, lastNamed n (withIdx 0 cs) = some p ∧
      r.status = (p.2.check ctx).status ∧
      r.message = (p.2.check ctx).message ∧
      r.error = (p.2.check ctx).error ∧
      r.latency = el p.1 := by
  rw [checkAll, checkAllGo_lookup] at h
  cases hp : lastNamed n (withIdx 0 cs) with
  | none =>
      rw [hp] at h
      simp [lookupKey, Option.elim] at h
  | some p =>
      rw [hp] at h
      simp only [Option.elim] at h
      have hr : runCheck p.2 ctx (el p.1) = r := Option.some.inj h
      refine ⟨p, rfl, ?_, ?_, ?_, ?_⟩ <;> rw [← hr] <;> simp [runCheck]

/-- The built-in memory checker (`internal/adapters/health/memory_checker.go`):
named "memory_storage"; unhealthy with the context's error text when the
context is done, healthy otherwise; it sets no latency itself. -/
def memoryChecker : Checker where
  name := "memory_storage"
  check := fun ctx =>
    if ctx.cancelled then
      { status := statusUnhealthy, message := "memory storage check cancelled",
        latency := 0, error := ctx.ctxErr }
    else
      { status := statusHealthy, message := "memory storage operational",
        latency := 0, error := "" }

/-- A measurement oracle that times every probe invocation at 7ns. -/
def elSeven : Nat → Int := fun _ => 7

/-- The entry CheckAll stores for the live memory checker when the measured
latency is 7: the checker's own zero latency is replaced. -/
def mcResult : CheckResult :=
  { status := statusHealthy, message := "memory storage operational",
    latency := 7, error := "" }

theorem checkAll_preserves_fields_replaces_latency_witness :
    ∃ p : Nat × Checker, lastNamed "memory_storage" (withIdx 0 [memoryChecker]) = some p ∧
      mcResult.status = (p.2.check ctx0).status ∧
      mcResult.message = (p.2.check ctx0).message ∧
      mcResult.error = (p.2.check ctx0).error ∧
      mcResult.latency = elSeven p.1 :=
  checkAll_preserves_fields_replaces_latency [memoryChecker] ctx0 elSeven
    "memory_storage" mcResult (by rfl)
